import Mathlib

/-!
Verification of the EDIWIN order-PDF parsers (Eurofiel and El Corte Inglés).

The Python sources are shallowly embedded over `List Char`: a page or
document text is its list of Unicode code points (matching Python's
code-point indexing), a token is a `List Char`, and every regular
expression used by the code is embedded by a small backtracking matcher
whose greedy, leftmost-first search order mirrors Python's `re` engine.
Modeling conventions, stated once here:
  * digits are ASCII `0`-`9` (the documents are ASCII apart from the
    Spanish letters handled explicitly below);
  * whitespace is `Char.isWhitespace` (space, tab, CR, LF);
  * `str.splitlines()` is modeled as splitting on `'\n'` (the texts are
    built by joining page texts with `'\n'`); the split is always
    followed in the source by a blank-line filter, which absorbs the
    trailing-empty-piece difference between `splitlines` and `splitOn`.
-/

namespace Ediwin

/-- Whitespace predicate modeling the regex class `\s` and `str.strip()`. -/
def isWs (c : Char) : Bool := c.isWhitespace

/-- Left strip: drop leading whitespace. -/
def stripLeft (l : List Char) : List Char := l.dropWhile isWs

/-- Right strip: drop trailing whitespace. -/
def stripRight (l : List Char) : List Char := (l.reverse.dropWhile isWs).reverse

/-- Model of Python `str.strip()`. -/
def stripChars (l : List Char) : List Char := stripRight (stripLeft l)

/-- Worker for `tokenize`: walk the characters, carrying the current
token reversed; a whitespace character closes the current token, and
empty tokens are discarded. -/
def tokenizeGo : List Char → List Char → List (List Char)
  | [], acc => if acc.isEmpty then [] else [acc.reverse]
  | c :: rest, acc =>
    if isWs c then
      if acc.isEmpty then tokenizeGo rest []
      else acc.reverse :: tokenizeGo rest []
    else tokenizeGo rest (c :: acc)

/-- Model of Python `str.split()` with no argument: split on runs of
whitespace, discarding empty pieces. -/
def tokenize (cs : List Char) : List (List Char) := tokenizeGo cs []

/-- Model of `" ".join(tokens)`. -/
def joinSpace (ts : List (List Char)) : List Char := List.intercalate [' '] ts

/-- Model of `s.replace(",", ".")` (all occurrences; `,` and `.` are
single characters, so replacement is a per-character map). -/
def commaToDot (s : List Char) : List Char :=
  s.map (fun c => if c = ',' then '.' else c)

/-- Model of `s.replace(".", "")`: remove every dot. -/
def removeDots (s : List Char) : List Char := s.filter (fun c => c ≠ '.')

/-- Model of Python `tok.isdigit()` for ASCII tokens: non-empty and all
digits. -/
def isIntTok (t : List Char) : Bool := !t.isEmpty && t.all Char.isDigit

/-- Model of `re.fullmatch(r"\d{13}", tok)`. -/
def isEan13 (t : List Char) : Bool := t.length == 13 && t.all Char.isDigit

/-- Model of `re.fullmatch(r"\d+/\d+/\d+", tok)`: exactly two slashes
separating three non-empty digit groups. -/
def isDDD (t : List Char) : Bool :=
  match t.splitOn '/' with
  | [a, b, c] => !a.isEmpty && a.all Char.isDigit &&
                 !b.isEmpty && b.all Char.isDigit &&
                 !c.isEmpty && c.all Char.isDigit
  | _ => false

/-- Model of `re.sub(r"/[^/]+$", "", s)`: if `s` ends with a slash
followed by one or more non-slash characters, drop from that last slash
on; otherwise `s` is unchanged. -/
def stripLastSeg (s : List Char) : List Char :=
  let r := s.reverse
  let seg := r.takeWhile (fun c => c ≠ '/')
  match r.drop seg.length with
  | '/' :: rest => if seg.isEmpty then s else rest.reverse
  | _ => s

/-- Model of `re.sub(r"\d+$", "", s)`: strip a trailing digit run. -/
def stripTrailingDigits (s : List Char) : List Char :=
  (s.reverse.dropWhile Char.isDigit).reverse

/-- Substring containment, modeling Python's `pat in s`. -/
def containsSub (pat : List Char) : List Char → Bool
  | [] => pat.isEmpty
  | c :: rest => pat.isPrefixOf (c :: rest) || containsSub pat rest

/-!  ### Eurofiel detail-line parser

`parse_detail_line` in `eurofiel_resumen_pedidos.py` (lines 34-84).
The Python locals `qty`, `p_bruto` and `pvp` are pure dead bindings and
are elided. -/

/-- `parse_detail_line(line)` from `eurofiel_resumen_pedidos.py`:
returns `(MODELO, PATRON, PRECIO)` or `None`. -/
def parse_detail_line (line : List Char) : Option (List Char × List Char × List Char) :=
  let parts := tokenize line
  if parts.length < 8 then none
  else if !isIntTok (parts.getD 0 []) then none
  else if !isEan13 (parts.getD 1 []) then none
  else
    match (parts.drop 2).findIdx? isDDD with
    | none => none
    | some k =>
      if parts.length ≤ (k + 2) + 4 then none
      else
        some (stripLastSeg (joinSpace ((parts.take (k + 2)).drop 2)),
              stripLastSeg (parts.getD (k + 2) []),
              commaToDot (parts.getD ((k + 2) + 3) []))

/-- `parse_detail_line_eurofiel(line)` from `app.py` (lines 37-76): the
web-app copy of the same parser; the only source difference is that the
unused `qty`/`p_bruto`/`pvp` bindings are absent there. -/
def parse_detail_line_eurofiel (line : List Char) : Option (List Char × List Char × List Char) :=
  let parts := tokenize line
  if parts.length < 8 then none
  else if !isIntTok (parts.getD 0 []) then none
  else if !isEan13 (parts.getD 1 []) then none
  else
    match (parts.drop 2).findIdx? isDDD with
    | none => none
    | some k =>
      if parts.length ≤ (k + 2) + 4 then none
      else
        some (stripLastSeg (joinSpace ((parts.take (k + 2)).drop 2)),
              stripLastSeg (parts.getD (k + 2) []),
              commaToDot (parts.getD ((k + 2) + 3) []))

/-!  ### Regex embedding

Each regular expression used by the sources is embedded with a tiny
backtracking toolkit: `tryRep min p cs k` matches the greedy quantifier
`p{min,}` (so `p*` is `min = 0` and `p+` is `min = 1`), trying the
longest repetition first and backtracking through the continuation `k`,
exactly as Python's `re` engine resolves greedy quantifiers; `litM`
matches a literal; `searchFrom` tries successive start positions
(leftmost match first), modeling `re.search`. -/

/-- Backtracking worker: try to consume `n, n-1, ..., min` characters of
`cs` (the caller passes `n` = the longest run satisfying the class),
handing the consumed prefix and the rest to the continuation. -/
def tryRepAux (cs : List Char) (lo : Nat) (k : List Char → List Char → Option α) :
    Nat → Option α
  | 0 => if lo = 0 then k [] cs else none
  | n + 1 =>
    if n + 1 < lo then none
    else
      match k (cs.take (n + 1)) (cs.drop (n + 1)) with
      | some r => some r
      | none => tryRepAux cs lo k n

/-- Greedy `class{lo,}` with backtracking: longest repetition first. -/
def tryRep (lo : Nat) (p : Char → Bool) (cs : List Char)
    (k : List Char → List Char → Option α) : Option α :=
  tryRepAux cs lo k (cs.takeWhile p).length

/-- Match a literal; on success return the rest of the input. -/
def litM (pat cs : List Char) : Option (List Char) :=
  if pat.isPrefixOf cs then some (cs.drop pat.length) else none

/-- Model of `re.search`: try the matcher at position 0, 1, ...; the
first (leftmost) success wins. -/
def searchFrom (m : List Char → Option α) : List Char → Option α
  | [] => m []
  | c :: rest =>
    match m (c :: rest) with
    | some r => some r
    | none => searchFrom m rest

/-- The `search` helper shared by `parse_order` and `parse_page_eci`:
`m.group(1).strip()` when the pattern matches, `""` otherwise. -/
def searchG (m : List Char → Option (List Char)) (text : List Char) : List Char :=
  match searchFrom m text with
  | some g => stripChars g
  | none => []

/-!  ### Eurofiel order segmenter

`split_orders` in `eurofiel_resumen_pedidos.py` (lines 9-31; `app.py`
lines 12-34 is character-for-character the same function). -/

/-- The literal head of the order marker regex `Nº Pedido\s*:`. -/
def markerPat : List Char := "Nº Pedido".toList

/-- Does the marker regex `Nº Pedido\s*:` match at the head of `cs`?
(The greedy `\s*` is equivalent to skipping the maximal whitespace run,
since `:` is not whitespace.) -/
def markerHere (cs : List Char) : Bool :=
  if markerPat.isPrefixOf cs then
    match (cs.drop 9).dropWhile isWs with
    | c :: _ => c == ':'
    | [] => false
  else false

/-- Start positions of all matches of the marker, in increasing order.
`re.finditer` returns non-overlapping matches scanning left to right;
since no match of this pattern can begin strictly inside another (the
characters after the leading `N` are `º`, space, letters, whitespace and
`:`, never `N`), its match starts are exactly all positions where the
pattern matches. -/
def matchStarts (cs : List Char) : List Nat :=
  (List.range cs.length).filter (fun i => markerHere (cs.drop i))

/-- Model of `full_text.rfind("\n", 0, b)`: the largest index `j < b`
holding a newline, if any. -/
def rfindNl (cs : List Char) (b : Nat) : Option Nat :=
  ((List.range b).filter (fun j => cs.getD j ' ' == '\n')).getLast?

/-- The backdated start of a chunk: two newlines before the marker start
`s`, as computed in `split_orders` (lines 19-25). -/
def orderStart (cs : List Char) (s : Nat) : Nat :=
  match rfindNl cs s with
  | none => 0
  | some prevNl =>
    match rfindNl cs prevNl with
    | none => 0
    | some prevPrevNl => prevPrevNl + 1

/-- One chunk per marker start: the slice from the backdated start to the
next marker start (or the end of the text), stripped. -/
def chunksFrom (cs : List Char) : List Nat → List (List Char)
  | [] => []
  | [s] => [stripChars (cs.drop (orderStart cs s))]
  | s :: s' :: rest =>
    stripChars ((cs.take s').drop (orderStart cs s)) :: chunksFrom cs (s' :: rest)

/-- `split_orders(full_text)`. -/
def split_orders (cs : List Char) : List (List Char) :=
  chunksFrom cs (matchStarts cs)

/-- Number of marker occurrences inside a chunk (used to state the
"each chunk contains exactly one marker" property). -/
def countMarkers (l : List Char) : Nat :=
  ((List.range l.length).filter (fun i => markerHere (l.drop i))).length

/-- Does the text contain a marker occurrence anywhere? -/
def hasMarker : List Char → Bool
  | [] => false
  | c :: rest => markerHere (c :: rest) || hasMarker rest

/-!  ### Eurofiel header extraction and `parse_order`
(`eurofiel_resumen_pedidos.py` lines 87-133; `app.py` lines 79-122 is
the same function under the name `parse_order_eurofiel`). -/

/-- Shape of the date group `\d{2}/\d{2}/\d{4}`. -/
def isDate10 : List Char → Bool
  | [d1, d2, s1, d3, d4, s2, d5, d6, d7, d8] =>
    d1.isDigit && d2.isDigit && s1 == '/' && d3.isDigit && d4.isDigit &&
    s2 == '/' && d5.isDigit && d6.isDigit && d7.isDigit && d8.isDigit
  | _ => false

/-- Matcher for `Nº Pedido\s*:\s*(\S+)` at a fixed position. -/
def pedidoEuM (cs : List Char) : Option (List Char) :=
  match litM "Nº Pedido".toList cs with
  | none => none
  | some r1 =>
    tryRep 0 isWs r1 (fun _ r2 =>
      match r2 with
      | ':' :: r3 =>
        tryRep 0 isWs r3 (fun _ r4 =>
          tryRep 1 (fun c => !isWs c) r4 (fun g _ => some g))
      | _ => none)

/-- Matcher for `Fecha Entrega\s*:\s*(\d{2}/\d{2}/\d{4})`. -/
def fechaEuM (cs : List Char) : Option (List Char) :=
  match litM "Fecha Entrega".toList cs with
  | none => none
  | some r1 =>
    tryRep 0 isWs r1 (fun _ r2 =>
      match r2 with
      | ':' :: r3 =>
        tryRep 0 isWs r3 (fun _ r4 =>
          if isDate10 (r4.take 10) then some (r4.take 10) else none)
      | _ => none)

/-- Character class `[A-ZÁÉÍÓÚÜÑ ]` of the country-name group. -/
def isPaisChar (c : Char) : Bool :=
  ('A' ≤ c && c ≤ 'Z') || c == 'Á' || c == 'É' || c == 'Í' || c == 'Ó' ||
  c == 'Ú' || c == 'Ü' || c == 'Ñ' || c == ' '

/-- Matcher for `País:\s*\([^)]*\)\s*([A-ZÁÉÍÓÚÜÑ ]+)`. -/
def paisM (cs : List Char) : Option (List Char) :=
  match litM "País:".toList cs with
  | none => none
  | some r1 =>
    tryRep 0 isWs r1 (fun _ r2 =>
      match r2 with
      | '(' :: r3 =>
        tryRep 0 (fun c => c != ')') r3 (fun _ r4 =>
          match r4 with
          | ')' :: r5 =>
            tryRep 0 isWs r5 (fun _ r6 =>
              tryRep 1 isPaisChar r6 (fun g _ => some g))
          | _ => none)
      | _ => none)

/-- Matcher for `Descripción:\s*(.+)` (`.` is any character except a
newline). -/
def descM (cs : List Char) : Option (List Char) :=
  match litM "Descripción:".toList cs with
  | none => none
  | some r1 =>
    tryRep 0 isWs r1 (fun _ r2 =>
      tryRep 1 (fun c => c != '\n') r2 (fun g _ => some g))

/-- Matcher for `Total Unidades\s+(\d+)`. -/
def totalUnM (cs : List Char) : Option (List Char) :=
  match litM "Total Unidades".toList cs with
  | none => none
  | some r1 =>
    tryRep 1 isWs r1 (fun _ r2 =>
      tryRep 1 Char.isDigit r2 (fun g _ => some g))

/-- The Eurofiel output row (dict built by `parse_order`, lines 123-133). -/
structure EuRow where
  tipo : List Char
  pedido : List Char
  fechaEntrega : List Char
  pais : List Char
  descripcion : List Char
  modelo : List Char
  patron : List Char
  precio : List Char
  totalUnidades : List Char
deriving DecidableEq, Repr

/-- Non-blank lines of a chunk: `[ln for ln in text.splitlines() if ln.strip()]`. -/
def nonBlankLines (chunk : List Char) : List (List Char) :=
  (chunk.splitOn '\n').filter (fun ln => !(stripChars ln).isEmpty)

/-- `parse_order(order_text)` from `eurofiel_resumen_pedidos.py`. -/
def parse_order (chunk : List Char) : EuRow :=
  let lines := nonBlankLines chunk
  let tipo := stripChars (lines.headD [])
  let pedido := searchG pedidoEuM chunk
  let fechaEntrega := searchG fechaEuM chunk
  let pais := searchG paisM chunk
  let descripcion := searchG descM chunk
  let totalUnidades := searchG totalUnM chunk
  match lines.findSome? parse_detail_line with
  | some (m, p, pr) =>
    ⟨tipo, pedido, fechaEntrega, pais, descripcion, m, p, pr, totalUnidades⟩
  | none =>
    ⟨tipo, pedido, fechaEntrega, pais, descripcion, [], [], [], totalUnidades⟩

/-- The pure core of `parse_pdf` (lines 144-149): split into chunks,
parse each, and drop rows whose `PEDIDO` is falsy (the empty string). -/
def parse_pdf_rows (fullText : List Char) : List EuRow :=
  ((split_orders fullText).map parse_order).filter (fun r => !r.pedido.isEmpty)

/-!  ### El Corte Inglés parser (`eci_parser.py`; `app.py` lines 140-245
holds a character-for-character copy of `parse_page_eci`). -/

/-- Model of `str.lower()` for the character repertoire of these
documents: ASCII plus the Spanish accented capitals appearing in the
sources' patterns. -/
def lowerEs (c : Char) : Char :=
  if c == 'Á' then 'á' else if c == 'É' then 'é' else if c == 'Í' then 'í'
  else if c == 'Ó' then 'ó' else if c == 'Ú' then 'ú' else if c == 'Ü' then 'ü'
  else if c == 'Ñ' then 'ñ' else c.toLower

/-- Model of `str.upper()` for the same repertoire. -/
def upperEs (c : Char) : Char :=
  if c == 'á' then 'Á' else if c == 'é' then 'É' else if c == 'í' then 'Í'
  else if c == 'ó' then 'Ó' else if c == 'ú' then 'Ú' else if c == 'ü' then 'Ü'
  else if c == 'ñ' then 'Ñ' else c.toUpper

/-- The document-type labels recognized by `parse_page_eci` (line 28). -/
def tipoSet : List (List Char) :=
  ["pedido".toList, "reposicion".toList, "reposición".toList,
   "anulacion pedido".toList, "anulación pedido".toList]

/-- TIPO: the first line whose lowercasing is one of the labels,
uppercased (lines 25-30). -/
def tipoOf (lines : List (List Char)) : List Char :=
  match lines.find? (fun ln => tipoSet.contains (ln.map lowerEs)) with
  | some ln => ln.map upperEs
  | none => []

/-- Matcher for `Nº Pedido\s+(\d+)` (ECI header, line 33). -/
def nPedidoEciM (cs : List Char) : Option (List Char) :=
  match litM "Nº Pedido".toList cs with
  | none => none
  | some r1 =>
    tryRep 1 isWs r1 (fun _ r2 =>
      tryRep 1 Char.isDigit r2 (fun g _ => some g))

/-- Matcher for `Dpto\. venta\s+(\d+)` (line 34). -/
def dptoM (cs : List Char) : Option (List Char) :=
  match litM "Dpto. venta".toList cs with
  | none => none
  | some r1 =>
    tryRep 1 isWs r1 (fun _ r2 =>
      tryRep 1 Char.isDigit r2 (fun g _ => some g))

/-- Matcher for `Fecha Entrega\s+(\d{2}/\d{2}/\d{4})` (line 35). -/
def fechaEciM (cs : List Char) : Option (List Char) :=
  match litM "Fecha Entrega".toList cs with
  | none => none
  | some r1 =>
    tryRep 1 isWs r1 (fun _ r2 =>
      if isDate10 (r2.take 10) then some (r2.take 10) else none)

/-- Character class `[A-ZÁÉÍÓÚÜÑ]` (no space) closing the Sucursal
patterns. -/
def isUpperEs (c : Char) : Bool :=
  ('A' ≤ c && c ≤ 'Z') || c == 'Á' || c == 'É' || c == 'Í' || c == 'Ó' ||
  c == 'Ú' || c == 'Ü' || c == 'Ñ'

/-- Matcher for `<lit>\s+([0-9 ]+)\s+[A-ZÁÉÍÓÚÜÑ]` (lines 38-40), the
one pattern here whose greedy groups genuinely backtrack (space belongs
to both `\s` and `[0-9 ]`). -/
def sucM (pat : List Char) (cs : List Char) : Option (List Char) :=
  match litM pat cs with
  | none => none
  | some r1 =>
    tryRep 1 isWs r1 (fun _ r2 =>
      tryRep 1 (fun c => c.isDigit || c == ' ') r2 (fun g r3 =>
        tryRep 1 isWs r3 (fun _ r4 =>
          match r4 with
          | c :: _ => if isUpperEs c then some g else none
          | [] => none)))

/-- SUC_ENTREGA: first pattern, falling back on the second when the
first yields a falsy (empty) value (lines 38-40). -/
def sucEntregaOf (text : List Char) : List Char :=
  let s1 := searchG (sucM "Sucursal Destino que Pide".toList) text
  if s1.isEmpty then searchG (sucM "Sucursal de Entrega".toList) text else s1

/-- Model of `re.match(r"^\d+\s+\d{13}\s", ln)`: the ECI detail-line
test (lines 46 and 79). -/
def isDetailStart (ln : List Char) : Bool :=
  (tryRep 1 Char.isDigit ln (fun _ r1 =>
    tryRep 1 isWs r1 (fun _ r2 =>
      if (r2.take 13).length == 13 && (r2.take 13).all Char.isDigit then
        match r2.drop 13 with
        | c :: _ => if isWs c then some () else none
        | [] => none
      else none)) : Option Unit).isSome

/-- Character class `[A-Z0-9]`. -/
def isUpperDigit (c : Char) : Bool := ('A' ≤ c && c ≤ 'Z') || c.isDigit

/-- Model of `re.match(r"^[A-Z0-9]{5,}\s+\d{3}\s", ln)`: the model/color
line test (line 80). -/
def isModelColorStart (ln : List Char) : Bool :=
  (tryRep 5 isUpperDigit ln (fun _ r1 =>
    tryRep 1 isWs r1 (fun _ r2 =>
      if (r2.take 3).length == 3 && (r2.take 3).all Char.isDigit then
        match r2.drop 3 with
        | c :: _ => if isWs c then some () else none
        | [] => none
      else none)) : Option Unit).isSome

/-- Model of `re.fullmatch(r"[A-Z0-9]+", tok)` (line 98). -/
def isAlnumTok (t : List Char) : Bool := !t.isEmpty && t.all isUpperDigit

/-- Numeric-shaped token: `re.fullmatch(r"[\d.,]+", tok)` (line 53). -/
def isNumTok (t : List Char) : Bool :=
  !t.isEmpty && t.all (fun c => c.isDigit || c == '.' || c == ',')

/-- Indices of numeric-shaped tokens (lines 52-53). -/
def numericIndices (parts : List (List Char)) : List Nat :=
  (List.range parts.length).filter (fun idx => isNumTok (parts.getD idx []))

/-- ECI price normalization (line 68): strip dots, then comma to dot. -/
def eciNormalize (s : List Char) : List Char := commaToDot (removeDots s)

/-- MODELO and COLOR from the line at index `j` (lines 93-106). -/
def modeloColorOf (lines : List (List Char)) (j : Nat) : List Char × List Char :=
  if j < lines.length then
    let infoParts := tokenize (lines.getD j [])
    if 3 ≤ infoParts.length && isAlnumTok (infoParts.getD 0 []) then
      let modelo := infoParts.getD 0 []
      let colorCode := infoParts.getD 1 []
      let colorName1 := infoParts.getD 2 []
      let colorName2 :=
        if 4 ≤ infoParts.length then stripTrailingDigits (infoParts.getD 3 [])
        else []
      (modelo,
       joinSpace ([colorCode, colorName1, colorName2].filter (fun p => !p.isEmpty)))
    else ([], [])
  else ([], [])

/-- The ECI output row (dict built at lines 108-119). -/
structure EciRow where
  tipo : List Char
  nPedido : List Char
  departamento : List Char
  descripcion : List Char
  modelo : List Char
  color : List Char
  precio : List Char
  fechaEntrega : List Char
  sucEntrega : List Char
  totalUnidades : List Char
deriving DecidableEq, Repr

/-- Cleaned page lines: `[ln.strip() for ln in text.splitlines() if ln.strip()]`. -/
def eciLines (text : List Char) : List (List Char) :=
  ((text.splitOn '\n').map stripChars).filter (fun l => !l.isEmpty)

/-- The body of the detail loop of `parse_page_eci` for line index `i`
(lines 44-119): `none` when the line is skipped, otherwise the row
appended for it. -/
def eciRowAt (tipo nped dep fecha suc : List Char) (lines : List (List Char))
    (i : Nat) : Option EciRow :=
  let ln := lines.getD i []
  if !isDetailStart ln then none
  else
    let parts := tokenize ln
    let numIdx := numericIndices parts
    if numIdx.length < 6 then none
    else
      let qtyIdx := numIdx.getD (numIdx.length - 6) 0
      let pBrutoIdx := numIdx.getD (numIdx.length - 4) 0
      let qty := parts.getD qtyIdx []
      let precio := eciNormalize (parts.getD pBrutoIdx [])
      let descripcion0 := joinSpace ((parts.take qtyIdx).drop 5)
      let extraDesc :=
        if i + 1 < lines.length then
          let nextLn := lines.getD (i + 1) []
          if !isDetailStart nextLn && !isModelColorStart nextLn &&
             !containsSub "WOMAN FIESTA".toList nextLn
          then stripChars nextLn else []
        else []
      let descripcion :=
        if !extraDesc.isEmpty then descripcion0 ++ ' ' :: extraDesc
        else descripcion0
      let j := i + 1 + (if !extraDesc.isEmpty then 1 else 0)
      let mc := modeloColorOf lines j
      some ⟨tipo, nped, dep, descripcion, mc.1, mc.2, precio, fecha, suc, qty⟩

/-- `parse_page_eci(text)` from `eci_parser.py` (lines 11-121). -/
def parse_page_eci (text : List Char) : List EciRow :=
  let lines := eciLines text
  let tipo := tipoOf lines
  let nped := searchG nPedidoEciM text
  let dep := searchG dptoM text
  let fecha := searchG fechaEciM text
  let suc := sucEntregaOf text
  (List.range lines.length).filterMap (eciRowAt tipo nped dep fecha suc lines)

/-- The page loop of `parse_pdf_eci` (lines 130-135): concatenate the
rows of every page, in page order. -/
def eciAllRows (pages : List (List Char)) : List EciRow :=
  (pages.map parse_page_eci).flatten

/-- Model of `pd.to_numeric(s, errors="coerce").fillna(0).astype(int)`
on the non-negative strings this column holds: a digit string is its
value, `digits.digits` truncates to the integer part, anything else
coerces to `NaN` and is filled with 0. -/
def toQty (s : List Char) : Nat :=
  if !s.isEmpty && s.all Char.isDigit then
    s.foldl (fun n c => 10 * n + (c.toNat - 48)) 0
  else
    match s.splitOn '.' with
    | [a, b] =>
      if !a.isEmpty && a.all Char.isDigit && !b.isEmpty && b.all Char.isDigit then
        a.foldl (fun n c => 10 * n + (c.toNat - 48)) 0
      else 0
    | _ => 0

/-- The grouping key of `parse_pdf_eci` (lines 147-157): every row field
except the summed quantity. -/
def eciKey (r : EciRow) : List (List Char) :=
  [r.tipo, r.nPedido, r.departamento, r.descripcion, r.modelo, r.color,
   r.precio, r.fechaEntrega, r.sucEntrega]

/-- Per-key aggregate of `df.groupby(group_cols)["TOTAL_UNIDADES"].sum()`
(lines 159-162): the summed quantity of the rows sharing key `k`. -/
def sumQtyForKey (rows : List EciRow) (k : List (List Char)) : Nat :=
  ((rows.filter (fun r => eciKey r == k)).map (fun r => toQty r.totalUnidades)).sum

/-!  ### General helper lemmas -/

/-- `findIdx?` with accumulator returns the first satisfying index. -/
lemma findIdx?_first_aux {α : Type} (p : α → Bool) (d : α) :
    ∀ (l : List α) (i s : Nat), i < l.length → p (l.getD i d) = true →
      (∀ j, j < i → p (l.getD j d) = false) →
      List.findIdx? p l s = some (s + i)
  | [], i, s => by intro h; simp at h
  | a :: t, 0, s => by
    intro _ hp _
    simp only [List.getD_cons_zero] at hp
    simp [List.findIdx?_cons, hp]
  | a :: t, i + 1, s => by
    intro hi hp hfirst
    have ha : p a = false := by
      have := hfirst 0 (Nat.succ_pos i)
      simpa using this
    have ih := findIdx?_first_aux p d t i (s + 1)
      (by simpa using Nat.lt_of_succ_lt_succ hi)
      (by simpa using hp)
      (fun j hj => by
        have := hfirst (j + 1) (Nat.succ_lt_succ hj)
        simpa using this)
    rw [List.findIdx?_cons, if_neg (by simp [ha]), ih]
    congr 1
    omega

/-- `findIdx?` from position 0 returns the first satisfying index. -/
lemma findIdx?_first {α : Type} (p : α → Bool) (d : α) (l : List α) (i : Nat)
    (hi : i < l.length) (hp : p (l.getD i d) = true)
    (hfirst : ∀ j, j < i → p (l.getD j d) = false) :
    l.findIdx? p = some i := by
  have := findIdx?_first_aux p d l i 0 hi hp hfirst
  simpa using this

/-- `findIdx?` is `none` when no element satisfies the predicate. -/
lemma findIdx?_none_of_all {α : Type} (p : α → Bool) :
    ∀ (l : List α) (s : Nat), (∀ a ∈ l, p a = false) → List.findIdx? p l s = none
  | [], s => by intro _; rfl
  | a :: t, s => by
    intro h
    rw [List.findIdx?_cons, if_neg (by simp [h a (List.mem_cons_self a t)])]
    exact findIdx?_none_of_all p t (s + 1) (fun x hx => h x (List.mem_cons_of_mem a hx))

/-- `findSome?` returns the image of the first element on which `f`
succeeds, located by its index. -/
lemma findSome?_at {α β : Type} (f : α → Option β) (d : α) :
    ∀ (l : List α) (i : Nat) (r : β), i < l.length →
      (∀ j, j < i → f (l.getD j d) = none) →
      f (l.getD i d) = some r →
      l.findSome? f = some r
  | [], i, r => by intro h; simp at h
  | a :: t, 0, r => by
    intro _ _ hf
    simp only [List.getD_cons_zero] at hf
    simp [List.findSome?_cons, hf]
  | a :: t, i + 1, r => by
    intro hi hnone hf
    have ha : f a = none := by
      have := hnone 0 (Nat.succ_pos i)
      simpa using this
    have ih := findSome?_at f d t i r
      (by simpa using Nat.lt_of_succ_lt_succ hi)
      (fun j hj => by
        have := hnone (j + 1) (Nat.succ_lt_succ hj)
        simpa using this)
      (by simpa using hf)
    simp [List.findSome?_cons, ha, ih]

/-- `getD` after `drop` reads at the shifted index. -/
lemma getD_drop {α : Type} (l : List α) (n m : Nat) (d : α) :
    (l.drop n).getD m d = l.getD (n + m) d := by
  simp [List.getD_eq_getElem?_getD, List.getElem?_drop]

/-!  ### C10 -/

/-- C10: the duplicated Eurofiel detail-line parsers are extensionally
equal: on every input line, `parse_detail_line`
(`eurofiel_resumen_pedidos.py`) and `parse_detail_line_eurofiel`
(`app.py`) return the same result. -/
theorem c10_duplicated_parsers_equal :
    ∀ line : List Char, parse_detail_line line = parse_detail_line_eurofiel line :=
  fun _ => rfl

/-!  ### C4: price-normalization idempotence -/

/-- `commaToDot` fixes comma-free strings. -/
lemma commaToDot_eq_self {s : List Char} (h : ',' ∉ s) : commaToDot s = s := by
  induction s with
  | nil => rfl
  | cons c t ih =>
    simp only [List.mem_cons, not_or] at h
    have hc : ¬ c = ',' := fun hcc => h.1 hcc.symm
    simp [commaToDot, hc] at ih ⊢
    exact ih h.2

/-- `commaToDot` never outputs a comma. -/
lemma comma_not_mem_commaToDot (s : List Char) : ',' ∉ commaToDot s := by
  intro hmem
  obtain ⟨a, _, ha⟩ := List.mem_map.mp hmem
  by_cases hc : a = ',' <;> simp [hc] at ha

/-- A comma survives `removeDots`. -/
lemma comma_mem_removeDots {s : List Char} (h : ',' ∈ s) : ',' ∈ removeDots s :=
  List.mem_filter.mpr ⟨h, by decide⟩

/-- A comma in the input puts a dot in the `commaToDot` output. -/
lemma dot_mem_commaToDot {s : List Char} (h : ',' ∈ s) : '.' ∈ commaToDot s :=
  List.mem_map.mpr ⟨',', h, by decide⟩

/-- C4, corrected.  The claim asserted idempotence of both normalizers
on already-normalized prices; that is true of the Eurofiel normalizer
(comma to dot) on every string, but the ECI normalizer (strip dots, then
comma to dot) is idempotent exactly on inputs without a comma: when the
input has a decimal comma, the first application produces a dot that the
second application strips. -/
theorem c4_normalization_idempotence :
    ∀ s : List Char,
      commaToDot (commaToDot s) = commaToDot s ∧
      (eciNormalize (eciNormalize s) = eciNormalize s ↔ ',' ∉ s) := by
  intro s
  refine ⟨commaToDot_eq_self (comma_not_mem_commaToDot s), ?_, ?_⟩
  · intro heq hc
    have hdot : '.' ∈ eciNormalize s :=
      dot_mem_commaToDot (comma_mem_removeDots hc)
    have hlt : (removeDots (eciNormalize s)).length < (eciNormalize s).length :=
      List.length_filter_lt_length_iff_exists.mpr ⟨'.', hdot, by decide⟩
    have hlen : (eciNormalize (eciNormalize s)).length = (eciNormalize s).length := by
      rw [heq]
    simp only [eciNormalize, commaToDot, List.length_map] at hlen hlt
    omega
  · intro hc
    have h1 : ',' ∉ removeDots s := fun hm => hc (List.mem_filter.mp hm).1
    have hgs : eciNormalize s = removeDots s := commaToDot_eq_self h1
    rw [hgs]
    have h2 : removeDots (removeDots s) = removeDots s :=
      List.filter_eq_self.mpr (fun a ha => (List.mem_filter.mp ha).2)
    unfold eciNormalize
    rw [h2]
    exact commaToDot_eq_self h1

/-- C4 counterexample: `"53.000"` is the ECI-normalized form of the
vendor price `"53,000"` (the spec's own example), yet normalizing it
again yields `"53000"`, so the ECI normalization is not idempotent on
already-normalized dot-decimal prices. -/
theorem c4_counterexample :
    eciNormalize ("53,000".toList) = "53.000".toList ∧
    eciNormalize (eciNormalize ("53,000".toList)) ≠ eciNormalize ("53,000".toList) := by
  decide

/-!  ### C5: aggregation is permutation-invariant -/

/-- C5: the per-key quantity totals of the `parse_pdf_eci` aggregation
(group by the nine descriptive fields, sum `TOTAL_UNIDADES`) are
invariant under any permutation of the assembled input rows. -/
theorem c5_aggregation_perm_invariant (rows rows' : List EciRow)
    (h : rows.Perm rows') (k : List (List Char)) :
    sumQtyForKey rows k = sumQtyForKey rows' k :=
  List.Perm.sum_eq (List.Perm.map _ (List.Perm.filter _ h))

/-- C5 witness: two rows sharing a key, in both orders, give total 5. -/
theorem c5_aggregation_perm_invariant_witness :
    sumQtyForKey [⟨[], [], [], [], [], [], [], [], [], ['2']⟩,
                  ⟨[], [], [], [], [], [], [], [], [], ['3']⟩] [[], [], [], [], [], [], [], [], []] = 5 ∧
    sumQtyForKey [⟨[], [], [], [], [], [], [], [], [], ['2']⟩,
                  ⟨[], [], [], [], [], [], [], [], [], ['3']⟩] [[], [], [], [], [], [], [], [], []] =
    sumQtyForKey [⟨[], [], [], [], [], [], [], [], [], ['3']⟩,
                  ⟨[], [], [], [], [], [], [], [], [], ['2']⟩] [[], [], [], [], [], [], [], [], []] :=
  ⟨by decide,
   c5_aggregation_perm_invariant _ _
     (List.Perm.swap ⟨[], [], [], [], [], [], [], [], [], ['3']⟩
       ⟨[], [], [], [], [], [], [], [], [], ['2']⟩ []) _⟩

/-!  ### C6: totality and rejection conditions of `parse_detail_line` -/

/-- C6: `parse_detail_line` is total by construction (it returns an
`Option`, every code path yields a value), and it returns `None` on any
line violating any one of: fewer than 8 whitespace tokens, a
non-integer first token, a second token that is not exactly 13 digits,
or no token from index 2 onward matching `digits/digits/digits`. -/
theorem c6_reject_conditions (line : List Char)
    (h : (tokenize line).length < 8 ∨
         isIntTok ((tokenize line).getD 0 []) = false ∨
         isEan13 ((tokenize line).getD 1 []) = false ∨
         ∀ t ∈ (tokenize line).drop 2, isDDD t = false) :
    parse_detail_line line = none := by
  unfold parse_detail_line
  by_cases h8 : (tokenize line).length < 8
  · rw [if_pos h8]
  rw [if_neg h8]
  by_cases h0 : isIntTok ((tokenize line).getD 0 []) = true
  swap
  · rw [if_pos (by rw [eq_false_of_ne_true h0]; rfl)]
  rw [if_neg (by rw [h0]; decide)]
  by_cases h1 : isEan13 ((tokenize line).getD 1 []) = true
  swap
  · rw [if_pos (by rw [eq_false_of_ne_true h1]; rfl)]
  rw [if_neg (by rw [h1]; decide)]
  rcases h with h | h | h | h
  · exact absurd h h8
  · exact absurd h0 (by rw [h]; decide)
  · exact absurd h1 (by rw [h]; decide)
  · rw [findIdx?_none_of_all isDDD _ 0 h]

/-- C6 witness: a line with only three tokens is rejected. -/
theorem c6_reject_conditions_witness :
    ((tokenize "uno dos tres".toList).length < 8 ∨
     isIntTok ((tokenize "uno dos tres".toList).getD 0 []) = false ∨
     isEan13 ((tokenize "uno dos tres".toList).getD 1 []) = false ∨
     ∀ t ∈ (tokenize "uno dos tres".toList).drop 2, isDDD t = false) ∧
    parse_detail_line "uno dos tres".toList = none :=
  ⟨Or.inl (by decide), c6_reject_conditions _ (Or.inl (by decide))⟩

/-!  ### C1: the Eurofiel detail-line field extraction -/

/-- C1: on any line whose whitespace tokens have the Eurofiel detail
shape — at least 8 tokens, integer first token, 13-digit second token, a
first `digits/digits/digits` token at index `c ≥ 2`, and at least 4
tokens after `c` — `parse_detail_line` returns the triple whose model is
the space-join of tokens `2..c-1` with the last `/`-segment stripped,
whose pattern is token `c` with the last `/`-segment stripped, and whose
price is token `c+3` (the net price) with commas replaced by dots. -/
theorem c1_detail_line_extraction (line : List Char) (c : Nat)
    (h8 : 8 ≤ (tokenize line).length)
    (h0 : isIntTok ((tokenize line).getD 0 []) = true)
    (h1 : isEan13 ((tokenize line).getD 1 []) = true)
    (hc2 : 2 ≤ c) (_hclen : c < (tokenize line).length)
    (hc : isDDD ((tokenize line).getD c []) = true)
    (hfirst : ∀ j, 2 ≤ j → j < c → isDDD ((tokenize line).getD j []) = false)
    (h4 : c + 4 < (tokenize line).length) :
    parse_detail_line line =
      some (stripLastSeg (joinSpace (((tokenize line).take c).drop 2)),
            stripLastSeg ((tokenize line).getD c []),
            commaToDot ((tokenize line).getD (c + 3) [])) := by
  have hfind : ((tokenize line).drop 2).findIdx? isDDD = some (c - 2) := by
    apply findIdx?_first isDDD []
    · simpa [List.length_drop] using (by omega : c - 2 < (tokenize line).length - 2)
    · rw [getD_drop]
      have : 2 + (c - 2) = c := by omega
      rw [this]; exact hc
    · intro j hj
      rw [getD_drop]
      exact hfirst (2 + j) (by omega) (by omega)
  unfold parse_detail_line
  rw [if_neg (by omega), if_neg (by rw [h0]; decide), if_neg (by rw [h1]; decide)]
  split
  next hnone => rw [hnone] at hfind; cases hfind
  next k heq =>
    rw [hfind] at heq
    injection heq with hk
    subst hk
    have hcc : c - 2 + 2 = c := by omega
    rw [hcc, if_neg (by omega)]

/-- C1 witness: the spec's example line yields model `3RC240/NARANJA`,
pattern `0863769/66`, price `50` (token index `c = 3`). -/
theorem c1_detail_line_extraction_witness :
    parse_detail_line "1 8447571299747 3RC240/NARANJA/XS 0863769/66/01 1 50 50 0 EUR".toList =
      some ("3RC240/NARANJA".toList, "0863769/66".toList, "50".toList) := by
  have h := c1_detail_line_extraction
    "1 8447571299747 3RC240/NARANJA/XS 0863769/66/01 1 50 50 0 EUR".toList 3
    (by decide) (by decide) (by decide) (by decide) (by decide) (by decide)
    (by intro j hj2 hj3; interval_cases j; decide) (by decide)
  rw [h]; decide

/-!  ### C9: only the first qualifying detail line matters -/

/-- C9: within one Eurofiel order chunk, the first non-blank line on
which `parse_detail_line` succeeds (all earlier lines failing)
determines the `MODELO`, `PATRON` and `PRECIO` fields of
`parse_order`'s record; the conclusion does not depend on any line after
index `i`, so later qualifying detail lines have no effect. -/
theorem c9_first_detail_line_wins (chunk : List Char) (i : Nat)
    (r : List Char × List Char × List Char)
    (hi : i < (nonBlankLines chunk).length)
    (hnone : ∀ j, j < i → parse_detail_line ((nonBlankLines chunk).getD j []) = none)
    (hr : parse_detail_line ((nonBlankLines chunk).getD i []) = some r) :
    (parse_order chunk).modelo = r.1 ∧ (parse_order chunk).patron = r.2.1 ∧
    (parse_order chunk).precio = r.2.2 := by
  have hfound : (nonBlankLines chunk).findSome? parse_detail_line = some r :=
    findSome?_at parse_detail_line [] (nonBlankLines chunk) i r hi hnone hr
  obtain ⟨m, p, pr⟩ := r
  simp [parse_order, hfound]

/-- C9 witness: in a chunk whose second non-blank line is the only
qualifying detail line, the record carries that line's triple. -/
theorem c9_first_detail_line_wins_witness :
    parse_detail_line
      ((nonBlankLines "PEDIDO\n1 8447571299747 3RC240/NARANJA/XS 0863769/66/01 1 50 50 0 EUR".toList).getD 1 []) =
      some ("3RC240/NARANJA".toList, "0863769/66".toList, "50".toList) ∧
    (parse_order "PEDIDO\n1 8447571299747 3RC240/NARANJA/XS 0863769/66/01 1 50 50 0 EUR".toList).modelo =
      "3RC240/NARANJA".toList :=
  ⟨by decide,
   (c9_first_detail_line_wins
      "PEDIDO\n1 8447571299747 3RC240/NARANJA/XS 0863769/66/01 1 50 50 0 EUR".toList 1
      ("3RC240/NARANJA".toList, "0863769/66".toList, "50".toList)
      (by decide)
      (by intro j hj; interval_cases j; decide)
      (by decide)).1⟩

/-!  ### ECI row-shape helper lemmas -/

/-- A row produced by the detail loop carries the page-level header
values and takes its quantity and price from the 6th-from-last and
4th-from-last numeric tokens of its detail line. -/
lemma eciRowAt_fields {t n d f s : List Char} {lines : List (List Char)}
    {i : Nat} {r : EciRow} (h : eciRowAt t n d f s lines i = some r) :
    r.tipo = t ∧ r.nPedido = n ∧ r.departamento = d ∧ r.fechaEntrega = f ∧
    r.sucEntrega = s ∧
    r.totalUnidades =
      (tokenize (lines.getD i [])).getD
        ((numericIndices (tokenize (lines.getD i []))).getD
          ((numericIndices (tokenize (lines.getD i []))).length - 6) 0) [] ∧
    r.precio =
      eciNormalize ((tokenize (lines.getD i [])).getD
        ((numericIndices (tokenize (lines.getD i []))).getD
          ((numericIndices (tokenize (lines.getD i []))).length - 4) 0) []) := by
  simp only [eciRowAt] at h
  by_cases hdet : isDetailStart (lines.getD i []) = true
  case neg => rw [if_pos (by rw [eq_false_of_ne_true hdet]; rfl)] at h; cases h
  case pos =>
    rw [if_neg (by rw [hdet]; decide)] at h
    by_cases h6 : (numericIndices (tokenize (lines.getD i []))).length < 6
    · rw [if_pos h6] at h; cases h
    · rw [if_neg h6] at h
      injection h with h
      subst h
      exact ⟨rfl, rfl, rfl, rfl, rfl, rfl, rfl⟩

/-- The detail loop succeeds on a qualifying line. -/
lemma eciRowAt_isSome {t n d f s : List Char} {lines : List (List Char)} {i : Nat}
    (hdet : isDetailStart (lines.getD i []) = true)
    (h6 : 6 ≤ (numericIndices (tokenize (lines.getD i []))).length) :
    (eciRowAt t n d f s lines i).isSome := by
  simp only [eciRowAt]
  rw [if_neg (by rw [hdet]; decide), if_neg (by omega)]
  rfl

/-- Every row of `parse_page_eci` comes from the detail loop at some
line index. -/
lemma mem_parse_page_eci {text : List Char} {r : EciRow}
    (h : r ∈ parse_page_eci text) :
    ∃ i, eciRowAt (tipoOf (eciLines text)) (searchG nPedidoEciM text)
        (searchG dptoM text) (searchG fechaEciM text) (sucEntregaOf text)
        (eciLines text) i = some r := by
  unfold parse_page_eci at h
  obtain ⟨i, _, hi⟩ := List.mem_filterMap.mp h
  exact ⟨i, hi⟩

/-!  ### C7: records without an order identifier -/

/-- C7, corrected.  The Eurofiel half of the claim holds: `parse_pdf`
filters out every row whose `PEDIDO` is empty, so a chunk with no
recoverable order number contributes no output row.  The ECI half is
false: `parse_page_eci` emits detail rows even when the page has no
recoverable `Nº Pedido`; such rows carry an empty `N_PEDIDO` and are
never discarded (this theorem's second conjunct states what actually
happens). -/
theorem c7_order_id_handling :
    (∀ (text : List Char) (r : EuRow), r ∈ parse_pdf_rows text → r.pedido ≠ []) ∧
    (∀ (page : List Char) (r : EciRow), searchG nPedidoEciM page = [] →
       r ∈ parse_page_eci page → r.nPedido = []) := by
  constructor
  · intro text r hr
    have := (List.mem_filter.mp hr).2
    simpa [List.isEmpty_iff] using this
  · intro page r hped hr
    obtain ⟨i, hi⟩ := mem_parse_page_eci hr
    have := (eciRowAt_fields hi).2.1
    rw [this, hped]

/-- C7 witness: instantiating both halves — a Eurofiel document whose
only chunk has a marker but no order value after the colon produces zero
rows, and a concrete ECI page row with no recoverable order number
carries an empty `N_PEDIDO`. -/
theorem c7_order_id_handling_witness :
    parse_pdf_rows "x\ny\nNº Pedido :".toList = [] ∧
    searchG nPedidoEciM
      "1 8447571299747 S1 R2 C3 VEST LARGO 134 1 53,000 53,000 72,900 7102,00".toList = [] ∧
    ∀ r ∈ parse_page_eci
      "1 8447571299747 S1 R2 C3 VEST LARGO 134 1 53,000 53,000 72,900 7102,00".toList,
      r.nPedido = [] :=
  ⟨by decide, by decide,
   fun r hr => (c7_order_id_handling).2 _ r (by decide) hr⟩

/-- C7 counterexample: an ECI page with a detail line but no recoverable
`Nº Pedido` produces one output row, not zero — so "zero output rows are
produced for that page" fails for the ECI parser (the row survives with
an empty order identifier, and the aggregation in `parse_pdf_eci` does
not discard it). -/
theorem c7_counterexample :
    searchG nPedidoEciM
      "1 8447571299747 S1 R2 C3 VEST LARGO 134 1 53,000 53,000 72,900 7102,00".toList = [] ∧
    (parse_page_eci
      "1 8447571299747 S1 R2 C3 VEST LARGO 134 1 53,000 53,000 72,900 7102,00".toList).length = 1 := by
  decide

/-!  ### C8: header fields across ECI pages -/

/-- C8, amended.  `parse_pdf_eci` has no cross-page header state: the
page loop simply concatenates `parse_page_eci` of each page, and every
row of a page carries exactly the header values recoverable from that
page's own text.  A detail record assembled from a page lacking a header
value therefore carries the empty string for it, never a value from an
earlier page (the claim's "first-wins persistence" does not exist in
this parser). -/
theorem c8_headers_are_per_page :
    (∀ (pre post : List (List Char)) (p : List Char),
       eciAllRows (pre ++ p :: post) =
         eciAllRows pre ++ parse_page_eci p ++ eciAllRows post) ∧
    (∀ (p : List Char) (r : EciRow), r ∈ parse_page_eci p →
       r.nPedido = searchG nPedidoEciM p ∧
       r.departamento = searchG dptoM p ∧
       r.fechaEntrega = searchG fechaEciM p ∧
       r.sucEntrega = sucEntregaOf p ∧
       r.tipo = tipoOf (eciLines p)) := by
  constructor
  · intro pre post p
    simp [eciAllRows]
  · intro p r hr
    obtain ⟨i, hi⟩ := mem_parse_page_eci hr
    obtain ⟨h1, h2, h3, h4, h5, _, _⟩ := eciRowAt_fields hi
    exact ⟨h2, h3, h4, h5, h1⟩

/-- C8 counterexample: a two-page document whose `Nº Pedido` (and other
header values) appear only on page 1, while the only detail line is on
page 2.  The claim says the page-2 record carries `74245201`; in fact
`parse_pdf_eci`'s row list for these pages is a single record whose
`N_PEDIDO` is empty. -/
theorem c8_counterexample :
    searchG nPedidoEciM "Pedido\nNº Pedido 74245201\nFecha Entrega 06/02/2025".toList =
      "74245201".toList ∧
    parse_page_eci "Pedido\nNº Pedido 74245201\nFecha Entrega 06/02/2025".toList = [] ∧
    (eciAllRows
      ["Pedido\nNº Pedido 74245201\nFecha Entrega 06/02/2025".toList,
       "1 8447571299747 S1 R2 C3 VEST LARGO 134 1 53,000 53,000 72,900 7102,00".toList]).map
        EciRow.nPedido = [[]] := by
  decide

/-- C8 witness: the amended theorem instantiated on the counterexample's
two pages — the combined row list splits page-by-page, and the page-2
row's header fields are exactly page 2's own (empty) header values. -/
theorem c8_headers_are_per_page_witness :
    eciAllRows
        ["Pedido\nNº Pedido 74245201\nFecha Entrega 06/02/2025".toList,
         "1 8447571299747 S1 R2 C3 VEST LARGO 134 1 53,000 53,000 72,900 7102,00".toList] =
      eciAllRows ["Pedido\nNº Pedido 74245201\nFecha Entrega 06/02/2025".toList] ++
        parse_page_eci
          "1 8447571299747 S1 R2 C3 VEST LARGO 134 1 53,000 53,000 72,900 7102,00".toList ++
        eciAllRows [] ∧
    ∀ r ∈ parse_page_eci
        "1 8447571299747 S1 R2 C3 VEST LARGO 134 1 53,000 53,000 72,900 7102,00".toList,
      r.nPedido =
        searchG nPedidoEciM
          "1 8447571299747 S1 R2 C3 VEST LARGO 134 1 53,000 53,000 72,900 7102,00".toList :=
  ⟨c8_headers_are_per_page.1
     ["Pedido\nNº Pedido 74245201\nFecha Entrega 06/02/2025".toList] []
     "1 8447571299747 S1 R2 C3 VEST LARGO 134 1 53,000 53,000 72,900 7102,00".toList,
   fun r hr => (c8_headers_are_per_page.2 _ r hr).1⟩

/-!  ### C2: ECI quantity and gross-price token positions -/

/-- C2: on any cleaned ECI page line that passes the detail-line test
(`^\d+\s+\d{13}\s`) and has at least 6 numeric-shaped tokens
(`[\d.,]+`), `parse_page_eci` emits a row whose quantity is the
6th-from-last numeric token and whose gross unit price is the
4th-from-last numeric token normalized by stripping dots and then
turning the decimal comma into a dot. -/
theorem c2_eci_qty_price_positions (text : List Char) (i : Nat)
    (hi : i < (eciLines text).length)
    (hdet : isDetailStart ((eciLines text).getD i []) = true)
    (h6 : 6 ≤ (numericIndices (tokenize ((eciLines text).getD i []))).length) :
    ∃ r ∈ parse_page_eci text,
      r.totalUnidades =
        (tokenize ((eciLines text).getD i [])).getD
          ((numericIndices (tokenize ((eciLines text).getD i []))).getD
            ((numericIndices (tokenize ((eciLines text).getD i []))).length - 6) 0) [] ∧
      r.precio =
        eciNormalize ((tokenize ((eciLines text).getD i [])).getD
          ((numericIndices (tokenize ((eciLines text).getD i []))).getD
            ((numericIndices (tokenize ((eciLines text).getD i []))).length - 4) 0) []) := by
  have hsome : (eciRowAt (tipoOf (eciLines text)) (searchG nPedidoEciM text)
      (searchG dptoM text) (searchG fechaEciM text) (sucEntregaOf text)
      (eciLines text) i).isSome := eciRowAt_isSome hdet h6
  obtain ⟨row, hrow⟩ := Option.isSome_iff_exists.mp hsome
  refine ⟨row, ?_, (eciRowAt_fields hrow).2.2.2.2.2⟩
  simp only [parse_page_eci]
  exact List.mem_filterMap.mpr ⟨i, List.mem_range.mpr hi, hrow⟩

/-- C2 witness: a concrete detail line whose trailing numeric tokens are
`134, 1, 53,000, 53,000, 72,900, 7102,00` yields quantity `134` and
price `53.000`. -/
theorem c2_eci_qty_price_positions_witness :
    ∃ r ∈ parse_page_eci
      "Pedido\nNº Pedido 74245201\n1 8447571299747 S1 R2 C3 VEST LARGO 134 1 53,000 53,000 72,900 7102,00".toList,
      r.totalUnidades = "134".toList ∧ r.precio = "53.000".toList := by
  obtain ⟨r, hmem, hq, hp⟩ := c2_eci_qty_price_positions
    "Pedido\nNº Pedido 74245201\n1 8447571299747 S1 R2 C3 VEST LARGO 134 1 53,000 53,000 72,900 7102,00".toList
    2 (by decide) (by decide) (by decide)
  exact ⟨r, hmem, hq.trans (by decide), hp.trans (by decide)⟩

/-!  ### C3: structure of `split_orders` -/

/-- The marker literal in explicit form. -/
lemma markerPat_eq :
    markerPat = 'N' :: "º Pedido".toList := by decide

/-- The marker literal has nine characters. -/
lemma markerPat_length : markerPat.length = 9 := by decide

/-- A marker matches at the head of `cs` iff `cs` is the literal,
a whitespace run, a colon, and anything after. -/
lemma markerHere_iff {cs : List Char} :
    markerHere cs = true ↔
      ∃ w t, cs = markerPat ++ w ++ ':' :: t ∧ w.all isWs = true := by
  constructor
  · intro h
    unfold markerHere at h
    by_cases hp : markerPat.isPrefixOf cs
    case neg => rw [if_neg hp] at h; cases h
    case pos =>
      rw [if_pos hp] at h
      obtain ⟨rest, hrest⟩ := List.isPrefixOf_iff_prefix.mp hp
      have hdrop : cs.drop 9 = rest := by
        rw [← hrest]; exact List.drop_left' markerPat_length
      rw [hdrop] at h
      rcases hdw : rest.dropWhile isWs with _ | ⟨c, t⟩
      · rw [hdw] at h; cases h
      · rw [hdw] at h
        have hc : c = ':' := by simpa using h
        subst hc
        have hr2 : rest = rest.takeWhile isWs ++ ':' :: t := by
          conv_lhs => rw [← List.takeWhile_append_dropWhile isWs rest]
          rw [hdw]
        refine ⟨rest.takeWhile isWs, t, ?_, ?_⟩
        · rw [← hrest]
          conv_lhs => rw [hr2]
          rw [← List.append_assoc]
        · exact List.all_eq_true.mpr (fun x hx => List.mem_takeWhile_imp hx)
  · rintro ⟨w, t, rfl, hw⟩
    unfold markerHere
    rw [if_pos (List.isPrefixOf_iff_prefix.mpr
      ⟨w ++ ':' :: t, (List.append_assoc markerPat w (':' :: t)).symm⟩)]
    rw [List.append_assoc, List.drop_left' markerPat_length,
        List.dropWhile_append_of_pos (fun a ha => List.all_eq_true.mp hw a ha),
        List.dropWhile_cons, if_neg (by decide)]
    rfl

/-- A matching position starts with the letter `N`. -/
lemma markerHere_cons_N {xs : List Char} (h : markerHere xs = true) :
    ∃ ys, xs = 'N' :: ys := by
  obtain ⟨w, t, hx, _⟩ := markerHere_iff.mp h
  rw [markerPat_eq] at hx
  refine ⟨"º Pedido".toList ++ w ++ ':' :: t, ?_⟩
  rw [hx]
  simp

/-- No marker can start strictly inside the extent of a marker match:
the characters there are the literal's tail, whitespace, or the colon,
none of which is `N`. -/
lemma markerHere_false_inside {cs : List Char} {s : Nat} {w t : List Char}
    (hdec : cs.drop s = markerPat ++ w ++ ':' :: t) (hw : w.all isWs = true)
    {j : Nat} (hj1 : s < j) (hj2 : j < s + 10 + w.length) :
    markerHere (cs.drop j) = false := by
  cases hmk : markerHere (cs.drop j) with
  | false => rfl
  | true =>
    exfalso
    obtain ⟨ys, hys⟩ := markerHere_cons_N hmk
    have h0 : (cs.drop j)[0]? = some 'N' := by rw [hys]; simp
    have hjj : (cs.drop s).drop (j - s) = cs.drop j := by
      rw [List.drop_drop]; congr 1; omega
    rw [← hjj, hdec, List.append_assoc, List.getElem?_drop] at h0
    simp only [Nat.add_zero] at h0
    generalize hd : j - s = d at h0
    have hd1 : 1 ≤ d := by omega
    have hd2 : d ≤ 9 + w.length := by omega
    rcases Nat.lt_or_ge d 9 with hlt | hge
    · interval_cases d <;>
        (rw [List.getElem?_append, if_pos (by decide)] at h0;
         exact absurd h0 (by decide))
    · rw [List.getElem?_append_right (by rw [markerPat_length]; omega)] at h0
      simp only [markerPat_length] at h0
      rcases Nat.lt_or_ge (d - 9) w.length with hw2 | hw3
      · rw [List.getElem?_append, if_pos hw2] at h0
        have hmem := List.getElem?_mem h0
        have := List.all_eq_true.mp hw 'N' hmem
        exact absurd this (by decide)
      · rw [List.getElem?_append_right hw3] at h0
        have hz : d - 9 - w.length = 0 := by omega
        rw [hz] at h0
        simp at h0

/-- A marker decomposition at position `s` bounds the text length. -/
lemma marker_extent {cs : List Char} {s : Nat} {w t : List Char}
    (hdec : cs.drop s = markerPat ++ w ++ ':' :: t) :
    s + 10 + w.length ≤ cs.length := by
  have hlen := congrArg List.length hdec
  simp only [List.length_drop, List.length_append, List.length_cons,
    markerPat_length] at hlen
  omega

/-- A marker occurrence anywhere in the suffix makes `hasMarker` true. -/
lemma hasMarker_append {ys : List Char} (h : markerHere ys = true) :
    ∀ xs : List Char, hasMarker (xs ++ ys) = true
  | [] => by
    obtain ⟨zs, hzs⟩ := markerHere_cons_N h
    rw [List.nil_append, hzs]
    have h2 : markerHere ('N' :: zs) = true := hzs ▸ h
    simp [hasMarker, h2]
  | x :: xs => by
    have ih := hasMarker_append h xs
    simp [List.cons_append, hasMarker, ih]

/-- Left strip keeps any suffix headed by the non-whitespace `N`. -/
lemma stripLeft_decomp (m1 rest : List Char) :
    ∃ m1', stripLeft (m1 ++ 'N' :: rest) = m1' ++ 'N' :: rest := by
  unfold stripLeft
  rw [List.dropWhile_append]
  by_cases he : (m1.dropWhile isWs).isEmpty = true
  · rw [if_pos he, List.dropWhile_cons, if_neg (by decide)]
    exact ⟨[], rfl⟩
  · rw [if_neg he]
    exact ⟨m1.dropWhile isWs, rfl⟩

/-- Right strip keeps any prefix ending at the non-whitespace colon. -/
lemma stripRight_decomp (m2 t : List Char) :
    ∃ t', stripRight (m2 ++ ':' :: t) = m2 ++ ':' :: t' := by
  unfold stripRight
  have hrev : (m2 ++ ':' :: t).reverse = t.reverse ++ ':' :: m2.reverse := by
    simp
  rw [hrev, List.dropWhile_append]
  by_cases he : (t.reverse.dropWhile isWs).isEmpty = true
  · rw [if_pos he, List.dropWhile_cons, if_neg (by decide)]
    exact ⟨[], by simp⟩
  · rw [if_neg he]
    exact ⟨(t.reverse.dropWhile isWs).reverse, by simp⟩

/-- Stripping preserves a marker-shaped infix. -/
lemma stripChars_decomp (m1 rest t : List Char) :
    ∃ m1' t', stripChars (m1 ++ 'N' :: (rest ++ ':' :: t)) =
      m1' ++ 'N' :: (rest ++ ':' :: t') := by
  unfold stripChars
  obtain ⟨m1', h1⟩ := stripLeft_decomp m1 (rest ++ ':' :: t)
  rw [h1]
  have hshape : m1' ++ 'N' :: (rest ++ ':' :: t) = (m1' ++ 'N' :: rest) ++ ':' :: t := by
    simp
  rw [hshape]
  obtain ⟨t', h2⟩ := stripRight_decomp (m1' ++ 'N' :: rest) t
  rw [h2]
  exact ⟨m1', t', by simp⟩

/-- The chunk slice `[a, e)` contains the whole marker extent when the
bounds allow, in marker-decomposed form. -/
lemma slice_decomp {cs : List Char} {s a e : Nat} {w t : List Char}
    (hdec : cs.drop s = markerPat ++ w ++ ':' :: t) (ha : a ≤ s)
    (he : s + 10 + w.length ≤ e) :
    ∃ m1 t', (cs.take e).drop a = m1 ++ markerPat ++ w ++ ':' :: t' := by
  have hext := marker_extent hdec
  have h1 : cs.take e = cs.take s ++ (cs.drop s).take (e - s) := by
    rw [← List.take_add]
    congr 1
    omega
  have h2 : (markerPat ++ w ++ ':' :: t).take (e - s) =
      markerPat ++ w ++ ':' :: t.take (e - s - (10 + w.length)) := by
    rw [List.take_append_eq_append_take,
        List.take_of_length_le (by rw [List.length_append, markerPat_length]; omega)]
    have hk : e - s - (markerPat ++ w).length = (e - s - (10 + w.length)) + 1 := by
      rw [List.length_append, markerPat_length]; omega
    rw [hk, List.take_succ_cons]
  rw [h1, hdec, h2,
      List.drop_append_of_le_length (by rw [List.length_take]; omega)]
  exact ⟨(cs.take s).drop a, t.take (e - s - (10 + w.length)), by simp⟩

/-- Main lemma: the stripped slice of a chunk whose window covers its
marker extent still contains a marker. -/
lemma chunk_hasMarker {cs : List Char} {s a e : Nat} {w t : List Char}
    (hdec : cs.drop s = markerPat ++ w ++ ':' :: t) (hw : w.all isWs = true)
    (ha : a ≤ s) (he : s + 10 + w.length ≤ e) :
    hasMarker (stripChars ((cs.take e).drop a)) = true := by
  obtain ⟨m1, t', hslice⟩ := slice_decomp hdec ha he
  rw [hslice]
  have hshape : m1 ++ markerPat ++ w ++ ':' :: t' =
      m1 ++ 'N' :: (("º Pedido".toList ++ w) ++ ':' :: t') := by
    rw [markerPat_eq]; simp
  rw [hshape]
  obtain ⟨m1', t'', hstrip⟩ := stripChars_decomp m1 ("º Pedido".toList ++ w) t'
  rw [hstrip]
  have hm : markerHere ('N' :: (("º Pedido".toList ++ w) ++ ':' :: t'')) = true := by
    apply markerHere_iff.mpr
    exact ⟨w, t'', by rw [markerPat_eq]; simp, hw⟩
  exact hasMarker_append hm m1'

/-- `rfind` of a newline before `b` lands strictly before `b`. -/
lemma rfindNl_lt {cs : List Char} {b j : Nat} (h : rfindNl cs b = some j) : j < b := by
  have hmem : j ∈ (List.range b).filter (fun j => cs.getD j ' ' == '\n') :=
    List.mem_of_mem_getLast? h
  exact List.mem_range.mp (List.mem_filter.mp hmem).1

/-- The backdated chunk start never passes the marker start. -/
lemma orderStart_le (cs : List Char) (s : Nat) : orderStart cs s ≤ s := by
  unfold orderStart
  rcases h1 : rfindNl cs s with _ | p
  · exact Nat.zero_le s
  · show (match rfindNl cs p with
      | none => 0
      | some prevPrevNl => prevPrevNl + 1) ≤ s
    rcases h2 : rfindNl cs p with _ | q
    · exact Nat.zero_le s
    · have hp := rfindNl_lt h1
      have hq := rfindNl_lt h2
      show q + 1 ≤ s
      omega

/-- `chunksFrom` yields one chunk per start position. -/
lemma chunksFrom_length (cs : List Char) :
    ∀ l : List Nat, (chunksFrom cs l).length = l.length
  | [] => rfl
  | [_] => rfl
  | s :: s' :: rest => by
    rw [chunksFrom, List.length_cons, chunksFrom_length cs (s' :: rest)]
    rfl

/-- Every chunk produced from a sorted list of genuine marker starts
contains a marker. -/
lemma chunksFrom_hasMarker (cs : List Char) :
    ∀ l : List Nat, l.Pairwise (· < ·) →
      (∀ x ∈ l, markerHere (cs.drop x) = true) →
      ∀ chunk ∈ chunksFrom cs l, hasMarker chunk = true
  | [] => by intro _ _ chunk hc; cases hc
  | [s] => by
    intro _ hmem chunk hc
    have hms : markerHere (cs.drop s) = true := hmem s (by simp)
    obtain ⟨w, t, hdec, hw⟩ := markerHere_iff.mp hms
    simp only [chunksFrom, List.mem_singleton] at hc
    subst hc
    rw [show cs.drop (orderStart cs s) = (cs.take cs.length).drop (orderStart cs s) by
      rw [List.take_length]]
    exact chunk_hasMarker hdec hw (orderStart_le cs s) (marker_extent hdec)
  | s :: s' :: rest => by
    intro hpw hmem chunk hc
    rw [chunksFrom] at hc
    rcases List.mem_cons.mp hc with hc | hc
    · subst hc
      have hms : markerHere (cs.drop s) = true := hmem s (by simp)
      obtain ⟨w, t, hdec, hw⟩ := markerHere_iff.mp hms
      have hlt : s < s' := (List.pairwise_cons.mp hpw).1 s' (by simp)
      have hms' : markerHere (cs.drop s') = true := hmem s' (by simp)
      have hext : s + 10 + w.length ≤ s' := by
        by_contra hcon
        push_neg at hcon
        rw [markerHere_false_inside hdec hw hlt hcon] at hms'
        cases hms'
      exact chunk_hasMarker hdec hw (orderStart_le cs s) hext
    · exact chunksFrom_hasMarker cs (s' :: rest) (List.pairwise_cons.mp hpw).2
        (fun x hx => hmem x (List.mem_cons_of_mem s hx)) chunk hc

/-- The marker-start positions are strictly increasing. -/
lemma matchStarts_pairwise (cs : List Char) :
    (matchStarts cs).Pairwise (· < ·) :=
  List.Pairwise.filter _ (List.pairwise_lt_range cs.length)

/-- Every recorded start position is a genuine marker match. -/
lemma matchStarts_marker {cs : List Char} {x : Nat} (h : x ∈ matchStarts cs) :
    markerHere (cs.drop x) = true :=
  (List.mem_filter.mp h).2

/-- C3, amended.  `split_orders` on a text with `N` marker occurrences
returns exactly `N` chunks, each chunk's start is backdated to two lines
before its marker (the `orderStart` computation), and each chunk
contains at least one marker occurrence.  The original claim's "exactly
one marker per chunk" and "chunks concatenate back losslessly with no
gaps" are false: consecutive chunks overlap on the backdated lines, so a
chunk can contain an earlier chunk's marker and the concatenation can
duplicate text (see the counterexample). -/
theorem c3_split_orders_structure (cs : List Char) :
    (split_orders cs).length = (matchStarts cs).length ∧
    ∀ chunk ∈ split_orders cs, hasMarker chunk = true :=
  ⟨chunksFrom_length cs (matchStarts cs),
   chunksFrom_hasMarker cs (matchStarts cs) (matchStarts_pairwise cs)
     (fun _ hx => matchStarts_marker hx)⟩

/-- C3 witness: a two-order document — two markers, two chunks, and the
first chunk contains a marker. -/
theorem c3_split_orders_structure_witness :
    (split_orders "PEDIDO\n\nNº Pedido : 4500123\nTotal Unidades 7".toList).length =
      (matchStarts "PEDIDO\n\nNº Pedido : 4500123\nTotal Unidades 7".toList).length ∧
    hasMarker ((split_orders "PEDIDO\n\nNº Pedido : 4500123\nTotal Unidades 7".toList).getD 0 []) = true :=
  ⟨(c3_split_orders_structure "PEDIDO\n\nNº Pedido : 4500123\nTotal Unidades 7".toList).1,
   (c3_split_orders_structure "PEDIDO\n\nNº Pedido : 4500123\nTotal Unidades 7".toList).2 _ (by decide)⟩

/-- C3 counterexample: on `"Nº Pedido : A\nNº Pedido : B"` the second
chunk is backdated past the first marker, so it contains two marker
occurrences (refuting "each chunk contains exactly one marker"), and the
chunks' total length exceeds the text's length, so no trimming-only
concatenation can reproduce the text (refuting the lossless no-gap
coverage). -/
theorem c3_counterexample :
    (split_orders "Nº Pedido : A\nNº Pedido : B".toList).length = 2 ∧
    countMarkers ((split_orders "Nº Pedido : A\nNº Pedido : B".toList).getD 1 []) = 2 ∧
    ("Nº Pedido : A\nNº Pedido : B".toList).length <
      ((split_orders "Nº Pedido : A\nNº Pedido : B".toList).getD 0 []).length +
      ((split_orders "Nº Pedido : A\nNº Pedido : B".toList).getD 1 []).length := by
  decide

end Ediwin
